import Mathlib

/-!
Verification of the emer/vision numerical core: a shallow embedding of the
kWTA (k-winners-take-all) FFFB inhibition solver, the Noisy-XX1 activation
function, the convolution / deconvolution / max-pooling filter substrate and
the filtering geometry, together with theorems settling the spec's claims.

Numeric model: the Go code computes with float32; the embedding uses an
arbitrary linear ordered field `F` (instantiated at `ℚ` for executable
statements and at `ℝ` where limits are involved), i.e. exact arithmetic.
The transcendental helpers `exp` (math32.Exp) and `pow` (math32.Pow) are
passed in as function parameters so that every definition stays executable.

Mutable Go state (tensors updated in place, `Inhib` records) is modelled by
explicit state records threaded through the iteration functions; tensor
value slices are modelled as total functions from the linear index.
-/

namespace EmerVision

variable {F : Type} [LinearOrderedField F]

/-! ## AvgMax statistics

Models the external `etable/minmax.AvgMax32` accumulator used by the kwta
package: `UpdateVal` accumulates a running sum, count and maximum, and
`CalcAvg` divides the sum by the count (when positive).  The `MaxIdx` field
of the Go struct is never read by this repository and is omitted; `Max`
starts at 0 here, which is adequate for the nonnegative Ge/Act streams this
package feeds it (the claims below do not depend on the start value). -/

structure AvgMax (F : Type) where
  Avg : F
  Max : F
  Sum : F
  N : ℕ
deriving Repr

def avgMaxInit : AvgMax F := ⟨0, 0, 0, 0⟩

/-- Source `AvgMax32.UpdateVal`: `Sum += val; if val > Max { Max = val }; N++`. -/
def avgMaxUpdate (am : AvgMax F) (v : F) : AvgMax F :=
  { am with
    Sum := am.Sum + v
    Max := if v > am.Max then v else am.Max
    N := am.N + 1 }

/-- Source `AvgMax32.CalcAvg`: `if N > 0 { Avg = Sum / N }`. -/
def avgMaxCalcAvg (am : AvgMax F) : AvgMax F :=
  if am.N > 0 then { am with Avg := am.Sum / (am.N : F) } else am

/-! ## FFFB inhibition (kwta package, `FFFBInhib` / `FFFBParams`) -/

/-- Source `FFFBInhib` record: computed feedforward / feedback / overall inhibition
plus running average-max statistics of Ge and Act. -/
structure FFFBInhib (F : Type) where
  FFi : F
  FBi : F
  Gi : F
  AvgMaxGe : AvgMax F
  AvgMaxAct : AvgMax F
deriving Repr

/-- Source `FFFBInhib.Init`: zero everything. -/
def fffbInhibInit : FFFBInhib F :=
  ⟨0, 0, 0, avgMaxInit, avgMaxInit⟩

/-- Source `FFFBParams`: gains, zero point, max-vs-average blend and feedback time
constant with its derived rate `FBDt = 1/FBTau`. -/
structure FFFBParams (F : Type) where
  Gi : F
  FF : F
  FB : F
  FBTau : F
  MaxVsAvg : F
  FF0 : F
  FBDt : F
deriving Repr

/-- Source `FFFBParams.Update`: `FBDt = 1 / FBTau`. -/
def FFFBUpdate (fb : FFFBParams F) : FFFBParams F :=
  { fb with FBDt := 1 / fb.FBTau }

/-- Source `FFFBParams.Defaults`: Gi=1.5, FF=1, FB=0.5, FBTau=1.4, MaxVsAvg=0,
FF0=0.1, then `Update`. -/
def FFFBDefaults : FFFBParams F :=
  FFFBUpdate { Gi := 3/2, FF := 1, FB := 1/2, FBTau := 7/5, MaxVsAvg := 0
               FF0 := 1/10, FBDt := 0 }

/-- Source `FFFBParams.FFInhib`: feedforward inhibition from the average and max
excitatory conductance: `ffNetin = avgGe + MaxVsAvg*(maxGe-avgGe)`, and
`ffi = FF * (ffNetin - FF0)` when `ffNetin > FF0`, else 0. -/
def FFInhib (fb : FFFBParams F) (avgGe maxGe : F) : F :=
  let ffNetin := avgGe + fb.MaxVsAvg * (maxGe - avgGe)
  if ffNetin > fb.FF0 then fb.FF * (ffNetin - fb.FF0) else 0

/-- Source `FFFBParams.FBInhib`: feedback inhibition from average activation. -/
def FBInhib (fb : FFFBParams F) (avgAct : F) : F := fb.FB * avgAct

/-- Source `FFFBParams.FBUpdt`: time-integrated feedback update
`fbi += FBDt * (newFbi - fbi)`. -/
def FBUpdt (fb : FFFBParams F) (fbi newFbi : F) : F :=
  fbi + fb.FBDt * (newFbi - fbi)

/-- Source `FFFBParams.Inhib`: full inhibition computation writing FFi, FBi
(low-pass-filtered) and `Gi = Gi_gain * (ffi + FBi)` into the record. -/
def Inhib (fb : FFFBParams F) (avgGe maxGe avgAct : F) (inh : FFFBInhib F) :
    FFFBInhib F :=
  let ffi := FFInhib fb avgGe maxGe
  let fbi := FBInhib fb avgAct
  let newFBi := FBUpdt fb inh.FBi fbi
  { inh with FFi := ffi, FBi := newFBi, Gi := fb.Gi * (ffi + newFBi) }

/-- Source `Inhib` as called in the kwta loops: stats are taken from the record
itself (`inh.AvgMaxGe.Avg`, `inh.AvgMaxGe.Max`, `inh.AvgMaxAct.Avg`). -/
def InhibOn (fb : FFFBParams F) (inh : FFFBInhib F) : FFFBInhib F :=
  Inhib fb inh.AvgMaxGe.Avg inh.AvgMaxGe.Max inh.AvgMaxAct.Avg inh

/-- n-fold application of the FFFB `Inhib` step with constant statistics,
starting from the `Init` (all-zero) state: the cross-iteration state is the
low-pass-filtered `FBi`. -/
def InhibIter (fb : FFFBParams F) (avgGe maxGe avgAct : F) : ℕ → FFFBInhib F
  | 0 => fffbInhibInit
  | n + 1 => Inhib fb avgGe maxGe avgAct (InhibIter fb avgGe maxGe avgAct n)

/-! ## Noisy XX1 activation (kwta package, `xx1.go`) -/

/-- Ion channel conductances (`Chans`). -/
structure Chans (F : Type) where
  E : F
  L : F
  I : F
  K : F
deriving Repr

/-- Source `Chans.SetFmOtherMinus`. -/
def SetFmOtherMinus (oth : Chans F) (minus : F) : Chans F :=
  ⟨oth.E - minus, oth.L - minus, oth.I - minus, oth.K - minus⟩

/-- Source `Chans.SetFmMinusOther`. -/
def SetFmMinusOther (minus : F) (oth : Chans F) : Chans F :=
  ⟨minus - oth.E, minus - oth.L, minus - oth.I, minus - oth.K⟩

/-- Source `XX1Params`: threshold, gain, noise variance and the derived constants
recomputed by `Update`. -/
structure XX1Params (F : Type) where
  Thr : F
  Gain : F
  NVar : F
  ActTau : F
  SigMult : F
  SigMultPow : F
  SigGain : F
  InterpRange : F
  GainCorRange : F
  GainCor : F
  SigGainNVar : F
  SigMultEff : F
  SigValAt0 : F
  InterpVal : F
  ActDt : F
deriving Repr

/-- Source `XX1Params.XX1`: the basic `x/(x+1)` function. -/
def XX1 (x : F) : F := x / (x + 1)

/-- Source `XX1Params.XX1GainCor`: `x/(x+1)` with the gain reduced within
`GainCorRange × NVar` of the origin to compensate for noise convolution. -/
def XX1GainCor (p : XX1Params F) (x : F) : F :=
  let gainCorFact := (p.GainCorRange - x / p.NVar) / p.GainCorRange
  if gainCorFact < 0 then XX1 (p.Gain * x)
  else XX1 ((p.Gain * (1 - p.GainCor * gainCorFact)) * x)

/-- The sigmoidal branch of `NoisyXX1` used for `x < 0`;
`expf` stands for `math32.Exp`. -/
def SigFun (expf : F → F) (p : XX1Params F) (x : F) : F :=
  p.SigMultEff / (1 + expf (-(x * p.SigGainNVar)))

/-- The interpolation branch of `NoisyXX1` used for `0 ≤ x < InterpRange`:
`SigValAt0 + (1 - (InterpRange - x)/InterpRange) * InterpVal`. -/
def InterpFun (p : XX1Params F) (x : F) : F :=
  p.SigValAt0 + (1 - (p.InterpRange - x) / p.InterpRange) * p.InterpVal

/-- Source `XX1Params.NoisyXX1`: the three-branch closed-form approximation to
`x/(x+1)` convolved with Gaussian noise. -/
def NoisyXX1 (expf : F → F) (p : XX1Params F) (x : F) : F :=
  if x < 0 then SigFun expf p x
  else if x < p.InterpRange then InterpFun p x
  else XX1GainCor p x

/-- Source `XX1Params.Update`: recomputes the derived constants; `powf` stands for
`math32.Pow`.  `SigValAt0 = 0.5 * SigMultEff` and
`InterpVal = XX1GainCor(InterpRange) - SigValAt0` use the just-computed
values, as the sequential Go assignments do. -/
def XX1Update (powf : F → F → F) (p : XX1Params F) : XX1Params F :=
  let sgnv := p.SigGain / p.NVar
  let sme := p.SigMult * powf (p.Gain * p.NVar) p.SigMultPow
  let sv0 := (1/2 : F) * sme
  let p1 := { p with SigGainNVar := sgnv, SigMultEff := sme, SigValAt0 := sv0 }
  { p1 with InterpVal := XX1GainCor p1 p1.InterpRange - sv0
            ActDt := 1 / p1.ActTau }

/-- Source `XX1Params.Defaults`: Thr=0.5, Gain=80, NVar=0.01, ActTau=3,
SigMult=0.33, SigMultPow=0.8, SigGain=3, InterpRange=0.01, GainCorRange=10,
GainCor=0.1, then `Update`. -/
def XX1Defaults (powf : F → F → F) : XX1Params F :=
  XX1Update powf
    { Thr := 1/2, Gain := 80, NVar := 1/100, ActTau := 3, SigMult := 33/100
      SigMultPow := 4/5, SigGain := 3, InterpRange := 1/100
      GainCorRange := 10, GainCor := 1/10
      SigGainNVar := 0, SigMultEff := 0, SigValAt0 := 0, InterpVal := 0
      ActDt := 0 }

/-! ## kWTA solver (kwta package, `kwta.go`)

Tensors are modelled by their flat value slices as total functions `ℕ → F`
together with the dimension counts the Go code reads off the shapes.  The
outer `[LayY, LayX]` / inner `[PlY, PlX]` loops of `KWTAPool` only ever use
the flattened pool index `pi < layY*layX` and unit index `ui < plY*plX`
(`idx = pi*plN + ui`), so the embedding iterates over those flat ranges. -/

/-- Source `KWTA` parameter block (part of it; `On` gates nothing inside the two
solver functions and is omitted). -/
structure KWTA (F : Type) where
  Iters : ℕ
  DelActThr : F
  LayFFFB : FFFBParams F
  PoolFFFB : FFFBParams F
  XX1p : XX1Params F
  Gbar : Chans F
  Erev : Chans F
  ErevSubThr : Chans F
  ThrSubErev : Chans F

/-- Source `KWTA.GeThrFmG`: threshold on Ge from the other conductances. -/
def GeThrFmG (k : KWTA F) (gi : F) : F :=
  (k.Gbar.I * gi * k.ErevSubThr.I + k.Gbar.L * k.ErevSubThr.L) / k.ThrSubErev.E

/-- Source `KWTA.ActFmG`: new activation and delta from conductances:
`nwAct = NoisyXX1(ge*Gbar.E - geThr)`, `delAct = ActDt*(nwAct - act)`,
returned `nwAct = act + delAct` (explicit-Euler integration). -/
def ActFmG (k : KWTA F) (expf : F → F) (geThr ge act : F) : F × F :=
  let nwAct := NoisyXX1 expf k.XX1p (ge * k.Gbar.E - geThr)
  let delAct := k.XX1p.ActDt * (nwAct - act)
  (act + delAct, delAct)

/-- Ascending-index loop: `loopN f n s` runs `f 0`, `f 1`, …, `f (n-1)`
over the state, the functional form of `for i := 0; i < n; i++`. -/
def loopN {σ : Type} (f : ℕ → σ → σ) : ℕ → σ → σ
  | 0, s => s
  | n + 1, s => f n (loopN f n s)

/-- Ge statistics gathered before the iteration loop:
`Init; for i, ge := range raws { UpdateVal(ge, i) }; CalcAvg`. -/
def geStats (raws : ℕ → F) (n : ℕ) : AvgMax F :=
  avgMaxCalcAvg (loopN (fun i am => avgMaxUpdate am (raws i)) n avgMaxInit)

/-! ### KWTALayer -/

/-- Mutable state of one `KWTALayer` solve: the raw excitatory drive, the
activation tensor being written, and the single layer-level `Inhib` record. -/
structure LayerState (F : Type) where
  raws : ℕ → F
  acts : ℕ → F
  inhib : FFFBInhib F

/-- Accumulator of the per-unit loop inside one `KWTALayer` iteration. -/
structure LayerAcc (F : Type) where
  acts : ℕ → F
  actStat : AvgMax F
  maxDelAct : F

/-- Body of `KWTALayer`'s per-unit loop: `gi = inhib.Gi (+ extGi[i])`,
`geThr = GeThrFmG(gi)`, activation update, stats and max-delta tracking. -/
def layerUnit (k : KWTA F) (expf : F → F) (layGi : F) (extGi : Option (ℕ → F))
    (raws : ℕ → F) (i : ℕ) (st : LayerAcc F) : LayerAcc F :=
  let gi := layGi + (match extGi with | none => 0 | some eg => eg i)
  let geThr := GeThrFmG k gi
  let nd := ActFmG k expf geThr (raws i) (st.acts i)
  { acts := Function.update st.acts i nd.1
    actStat := avgMaxUpdate st.actStat nd.1
    maxDelAct := max st.maxDelAct |nd.2| }

/-- One iteration (`cy`) of the `KWTALayer` loop: the layer FFFB `Inhib`
update, the per-unit pass, and `Act.CalcAvg`; returns the new state and the
iteration's `maxDelAct`. -/
def layerIter (k : KWTA F) (expf : F → F) (n : ℕ) (extGi : Option (ℕ → F))
    (s : LayerState F) : LayerState F × F :=
  let inh := InhibOn k.LayFFFB s.inhib
  let inh0 := { inh with AvgMaxAct := avgMaxInit }
  let u := loopN (layerUnit k expf inh.Gi extGi s.raws) n
    ⟨s.acts, inh0.AvgMaxAct, 0⟩
  (⟨s.raws, u.acts, { inh0 with AvgMaxAct := avgMaxCalcAvg u.actStat }⟩,
   u.maxDelAct)

/-! ### KWTAPool -/

/-- Mutable state of one `KWTAPool` solve: raw drive, activations, the
layer-level `Inhib` record and the per-pool `Inhib` records (a function of
the flat pool index, modelling the caller-provided slice). -/
structure PoolState (F : Type) where
  raws : ℕ → F
  acts : ℕ → F
  layInhib : FFFBInhib F
  plInhibs : ℕ → FFFBInhib F

/-- Accumulator of the per-unit loop inside one pool of a `KWTAPool`
iteration. -/
structure PoolUnitAcc (F : Type) where
  acts : ℕ → F
  layActStat : AvgMax F
  plActStat : AvgMax F
  maxDelAct : F

/-- Accumulator of the per-pool loop of one `KWTAPool` iteration. -/
structure PoolAcc (F : Type) where
  acts : ℕ → F
  plInhibs : ℕ → FFFBInhib F
  layActStat : AvgMax F
  maxDelAct : F

/-- Per-unit effective inhibition in `KWTAPool`: `gi = giPool`, and when an
external inhibition tensor is present
`gi = max(giPool, PoolFFFB.Gi * PoolFFFB.FFInhib(eIn, eIn))`. -/
def poolUnitGi (k : KWTA F) (giPool : F) (extGi : Option (ℕ → F)) (idx : ℕ) : F :=
  match extGi with
  | none => giPool
  | some eg => max giPool (k.PoolFFFB.Gi * FFInhib k.PoolFFFB (eg idx) (eg idx))

/-- Body of the inner (per-unit) loop of one pool. -/
def poolUnit (k : KWTA F) (expf : F → F) (giPool : F) (extGi : Option (ℕ → F))
    (raws : ℕ → F) (pui : ℕ) (ui : ℕ) (st : PoolUnitAcc F) : PoolUnitAcc F :=
  let idx := pui + ui
  let gi := poolUnitGi k giPool extGi idx
  let geThr := GeThrFmG k gi
  let nd := ActFmG k expf geThr (raws idx) (st.acts idx)
  { acts := Function.update st.acts idx nd.1
    layActStat := avgMaxUpdate st.layActStat nd.1
    plActStat := avgMaxUpdate st.plActStat nd.1
    maxDelAct := max st.maxDelAct |nd.2| }

/-- Body of the outer (per-pool) loop of one `KWTAPool` iteration: the
pool-level FFFB `Inhib` update, `giPool = max(layGi, poolGi)`, the per-unit
pass and the pool's `Act.CalcAvg`. -/
def poolBody (k : KWTA F) (expf : F → F) (extGi : Option (ℕ → F))
    (raws : ℕ → F) (plN : ℕ) (layGi : F) (pi : ℕ) (st : PoolAcc F) : PoolAcc F :=
  let plInh := InhibOn k.PoolFFFB (st.plInhibs pi)
  let giPool := max layGi plInh.Gi
  let pui := pi * plN
  let u := loopN (poolUnit k expf giPool extGi raws pui) plN
    ⟨st.acts, st.layActStat, avgMaxInit, st.maxDelAct⟩
  { acts := u.acts
    plInhibs := Function.update st.plInhibs pi
      { plInh with AvgMaxAct := avgMaxCalcAvg u.plActStat }
    layActStat := u.layActStat
    maxDelAct := u.maxDelAct }

/-- One iteration (`cy`) of the `KWTAPool` loop: the layer FFFB `Inhib`
update, then the per-pool pass, then the layer `Act.CalcAvg`; returns the
new state and the iteration's `maxDelAct`. -/
def poolIter (k : KWTA F) (expf : F → F) (layN plN : ℕ)
    (extGi : Option (ℕ → F)) (s : PoolState F) : PoolState F × F :=
  let lay := InhibOn k.LayFFFB s.layInhib
  let p := loopN (poolBody k expf extGi s.raws plN lay.Gi) layN
    ⟨s.acts, s.plInhibs, avgMaxInit, 0⟩
  (⟨s.raws, p.acts, { lay with AvgMaxAct := avgMaxCalcAvg p.layActStat },
    p.plInhibs⟩,
   p.maxDelAct)

/-! ### The fixed-point loop shared by KWTALayer and KWTAPool

`for cy := 0; cy < Iters; cy++ { …iterate…; if cy > 2 && maxDelAct <
DelActThr { break } }` — fuel counts the remaining iterations, `cy` the Go
loop counter.  The pair returned is (final state, iterations performed). -/

def kwtaLoop {σ : Type} (thr : F) (step : σ → σ × F) : ℕ → ℕ → σ → σ × ℕ
  | _, 0, s => (s, 0)
  | cy, r + 1, s =>
    if 2 < cy ∧ (step s).2 < thr then ((step s).1, 1)
    else ((kwtaLoop thr step (cy + 1) r (step s).1).1,
          (kwtaLoop thr step (cy + 1) r (step s).1).2 + 1)

/-- Run a kwta step function for up to `Iters` iterations from `cy = 0`. -/
def kwtaRun {σ : Type} (k : KWTA F) (step : σ → σ × F) (s : σ) : σ × ℕ :=
  kwtaLoop k.DelActThr step 0 k.Iters s

/-- The state `KWTALayer` enters its iteration loop with: the local `Inhib`
record is zero except for the Ge statistics gathered from the raw input. -/
def layerInit (raws acts0 : ℕ → F) (n : ℕ) : LayerState F :=
  ⟨raws, acts0, { fffbInhibInit with AvgMaxGe := geStats raws n }⟩

/-- Source `KWTA.KWTALayer` over `n` units (the act tensor is shape-matched to raw
by the Go code; `extGi` is `none` when absent or of mismatched shape).
Returns the final state and the number of iterations performed. -/
def KWTALayer (k : KWTA F) (expf : F → F) (n : ℕ) (raws acts0 : ℕ → F)
    (extGi : Option (ℕ → F)) : LayerState F × ℕ :=
  kwtaRun k (layerIter k expf n extGi) (layerInit raws acts0 n)

/-- The state `KWTAPool` enters its iteration loop with: the local layer
`Inhib` record is zero except for the layer-wide Ge statistics, and each
caller-provided pool record gets its pool's Ge statistics (its other fields,
notably `FBi`, persist from the caller). -/
def poolInit (raws acts0 : ℕ → F) (inhibs0 : ℕ → FFFBInhib F)
    (layN plN : ℕ) : PoolState F :=
  ⟨raws, acts0, { fffbInhibInit with AvgMaxGe := geStats raws (layN * plN) },
   fun pi => { inhibs0 pi with
               AvgMaxGe := geStats (fun ui => raws (pi * plN + ui)) plN }⟩

/-- Source `KWTA.KWTAPool` over `layN` pools of `plN` units each (`layN = layY*layX`,
`plN = plY*plX`); `inhibs0` models the caller-provided pool `Inhib` slice.
Returns the final state and the number of iterations performed. -/
def KWTAPool (k : KWTA F) (expf : F → F) (layN plN : ℕ) (raws acts0 : ℕ → F)
    (inhibs0 : ℕ → FFFBInhib F) (extGi : Option (ℕ → F)) : PoolState F × ℕ :=
  kwtaRun k (poolIter k expf layN plN extGi) (poolInit raws acts0 inhibs0 layN plN)

/-! ## Filtering geometry (vfilter package, `geom.go`)

Go `image.Point` coordinates are machine ints; `Pt` models them as `ℤ`,
and Go's truncating integer division `/` is `Int.tdiv`. -/

structure Pt where
  X : ℤ
  Y : ℤ
deriving Repr, DecidableEq

/-- Source `Geom`: the filtering geometry record. -/
structure Geom where
  In : Pt
  Out : Pt
  Border : Pt
  Spacing : Pt
  FiltSz : Pt
  FiltLt : Pt
  FiltRt : Pt
deriving Repr, DecidableEq

/-- Source `LeftHalf`: `x/2` for even x, `(x-1)/2` for odd x. -/
def LeftHalf (x : ℤ) : ℤ :=
  if x % 2 = 0 then Int.tdiv x 2 else Int.tdiv (x - 1) 2

/-- Source `Geom.UpdtFilt`: computes the left/right split of the filter size and
raises `Border` per axis up to `FiltRt` when smaller. -/
def UpdtFilt (g : Geom) : Geom :=
  let lt : Pt := ⟨LeftHalf g.FiltSz.X, LeftHalf g.FiltSz.Y⟩
  let rt : Pt := ⟨g.FiltSz.X - lt.X, g.FiltSz.Y - lt.Y⟩
  { g with
    FiltLt := lt
    FiltRt := rt
    Border := ⟨if g.Border.X < rt.X then rt.X else g.Border.X,
               if g.Border.Y < rt.Y then rt.Y else g.Border.Y⟩ }

/-- Source `Geom.Set`: stores border, spacing and filter size, then `UpdtFilt`. -/
def GeomSet (g : Geom) (border spacing filtSz : Pt) : Geom :=
  UpdtFilt { g with Border := border, Spacing := spacing, FiltSz := filtSz }

/-- Source `Geom.SetSize`: stores `In` and computes
`Out = (In - 2*Border).Div(Spacing.X)` — the Go code divides **both** axes
by `Spacing.X` (source comment `// only 1`), with Go's truncating `/`. -/
def SetSize (g : Geom) (inSize : Pt) : Geom :=
  { g with
    In := inSize
    Out := ⟨Int.tdiv (inSize.X - 2 * g.Border.X) g.Spacing.X,
            Int.tdiv (inSize.Y - 2 * g.Border.Y) g.Spacing.X⟩ }

/-! ## Convolution (vfilter package, `conv.go`, per-cell body of `convThr`)

The padded input image is a total function on `ℤ × ℤ` (the padding contract
makes every access in range; the embedding needs no bounds), the filter bank
a function of the flat filter-value index as the Go code reads
`flt.Values[fst+fi]`.  The filtering substrate only adds, multiplies and
compares, so it is embedded over a `LinearOrderedRing R` (instantiated at
`ℤ` for concrete evaluations, which the spec's integer examples use). -/

variable {R : Type} [LinearOrderedRing R]

/-- The filter-window dot product accumulated by `convThr` for output cell
`(y, x)` of filter `f`: `Σ_{fy,fx} img[iy+fy, ix+fx] * flt[fst + fy*fsX+fx]`
where `iy = Border.Y - FiltLt.Y + y*Spacing.Y` (and likewise x). -/
def convRawSum (g : Geom) (flt : ℕ → R) (f : ℕ) (img : ℤ → ℤ → R)
    (y x : ℕ) : R :=
  let ist : Pt := ⟨g.Border.X - g.FiltLt.X, g.Border.Y - g.FiltLt.Y⟩
  let iy := ist.Y + y * g.Spacing.Y
  let ix := ist.X + x * g.Spacing.X
  let fsY := g.FiltSz.Y.toNat
  let fsX := g.FiltSz.X.toNat
  let fst := f * fsY * fsX
  loopN (fun fy acc =>
    loopN (fun fx acc =>
      acc + img (iy + fy) (ix + fx) * flt (fst + (fy * fsX + fx))) fsX acc)
    fsY 0

/-- The polarity split written by `convThr` after `sum *= gain`: channel 0
gets `sum` and channel 1 gets 0 when `sum > 0`, else channel 0 gets 0 and
channel 1 gets `-sum`. -/
def polaritySplit (sum : R) : R × R :=
  if sum > 0 then (sum, 0) else (0, -sum)

/-- One output cell of `convThr`: the gain-multiplied window sum, split into
the two polarity channels. -/
def convThrCell (g : Geom) (flt : ℕ → R) (f : ℕ) (img : ℤ → ℤ → R)
    (gain : R) (y x : ℕ) : R × R :=
  polaritySplit (gain * convRawSum g flt f img y x)

/-- The condition "Exactly one of the two channels is nonzero" as the spec states it. -/
def ExactlyOneNonzero (a b : R) : Prop :=
  (a ≠ 0 ∧ b = 0) ∨ (a = 0 ∧ b ≠ 0)

instance (a b : R) : Decidable (ExactlyOneNonzero a b) := by
  unfold ExactlyOneNonzero; infer_instance

/-! ## Deconvolution (vfilter package, `deconv.go`) -/

/-- The polarity-split output tensor `Deconv` reads: its shape and its
values by `[y, x, polarity, filter]` index. -/
structure OutTensor (R : Type) where
  Shp : List ℤ
  val : ℕ → ℕ → ℕ → ℕ → R

/-- The activation `Deconv` recovers from one output cell (deconv.go lines
47–52): it tests polarity channel **1** and returns it when positive, else
the negated channel 0: `act = out[y,x,1,f] if out[y,x,1,f] > 0 else
-out[y,x,0,f]`. -/
def deconvAct (out : OutTensor R) (y x f : ℕ) : R :=
  if out.val y x 1 f > 0 then out.val y x 1 f else -(out.val y x 0 f)

/-- Modelled from the spec: the signed-activation recovery the spec
describes for `Deconv` — "recovers a signed activation as `onValue if
onValue>0 else −offValue`", with `onValue` polarity channel 0 (On) and
`offValue` channel 1 (Off). -/
def specDeconvAct (out : OutTensor R) (y x f : ℕ) : R :=
  if out.val y x 0 f > 0 then out.val y x 0 f else -(out.val y x 1 f)

/-- Point update of a 2D accumulation image. -/
def img2Update (img : ℤ → ℤ → R) (p q : ℤ) (v : R) : ℤ → ℤ → R :=
  fun a b => if a = p ∧ b = q then v else img a b

/-- The scatter-add of one output cell into the accumulation image:
for each filter element, `img[iy+fy, ix+fx] += act * flt[fst+fi]`. -/
def deconvCellAdd (g : Geom) (flt : ℕ → R) (f : ℕ) (act : R)
    (y x : ℕ) (img : ℤ → ℤ → R) : ℤ → ℤ → R :=
  let ist : Pt := ⟨g.Border.X - g.FiltLt.X, g.Border.Y - g.FiltLt.Y⟩
  let iy := ist.Y + y * g.Spacing.Y
  let ix := ist.X + x * g.Spacing.X
  let fsY := g.FiltSz.Y.toNat
  let fsX := g.FiltSz.X.toNat
  let fst := f * fsY * fsX
  loopN (fun fy im =>
    loopN (fun fx im =>
      img2Update im (iy + fy) (ix + fx)
        (act * flt (fst + (fy * fsX + fx)) + im (iy + fy) (ix + fx))) fsX im)
    fsY img

/-- The geometry `Deconv` works with: filter size stored and updated, input
size set from the image dims. -/
def deconvGeom (g0 : Geom) (fy fx : ℕ) (imgDimY imgDimX : ℤ) : Geom :=
  SetSize (UpdtFilt { g0 with FiltSz := ⟨(fx : ℤ), (fy : ℤ)⟩ })
    ⟨imgDimX, imgDimY⟩

/-- The output shape `Deconv` requires: `[Out.Y, Out.X, 2, nf]`. -/
def deconvOutShape (g0 : Geom) (nf fy fx : ℕ) (imgDimY imgDimX : ℤ) :
    List ℤ :=
  let g := deconvGeom g0 fy fx imgDimY imgDimX
  [g.Out.Y, g.Out.X, 2, (nf : ℤ)]

/-- Source `vfilter.Deconv`: sets the filter size into the geometry, updates it,
sets the input size from the image dims, and when the output tensor's shape
is not exactly `[Out.Y, Out.X, 2, nf]` logs a message and returns with the
accumulation image untouched; otherwise accumulates `act * filter` over
every output cell.  Returns the (possibly updated) image. -/
def Deconv (g0 : Geom) (nf fy fx : ℕ) (flt : ℕ → R) (imgDimY imgDimX : ℤ)
    (img : ℤ → ℤ → R) (out : OutTensor R) : ℤ → ℤ → R :=
  let g := deconvGeom g0 fy fx imgDimY imgDimX
  if deconvOutShape g0 nf fy fx imgDimY imgDimX ≠ out.Shp then img
  else
    loopN (fun f im =>
      loopN (fun y im =>
        loopN (fun x im =>
          deconvCellAdd g flt f (deconvAct out y x f) y x im)
          g.Out.X.toNat im)
        g.Out.Y.toNat im)
      nf img

/-! ## Max pooling (vfilter package, `pool.go`, per-cell body of
`maxPoolThr`) -/

/-- One output cell of `maxPoolThr`: the running max over the
`psize.Y × psize.X` window starting at `(y*spc.Y, x*spc.X)`, initialized to
0 (`max := float32(0); if iv > max { max = iv }`). -/
def maxPoolCell (psY psX : ℕ) (inT : ℕ → ℕ → ℕ → ℕ → R)
    (iy ix pol ang : ℕ) : R :=
  loopN (fun py m =>
    loopN (fun px m =>
      let iv := inT (iy + py) (ix + px) pol ang
      if iv > m then iv else m) psX m) psY 0

/-- Source `maxPoolThr`'s output value at `(y, x, pol, ang)`. -/
def maxPoolOut (psY psX spcY spcX : ℕ) (inT : ℕ → ℕ → ℕ → ℕ → R)
    (y x pol ang : ℕ) : R :=
  maxPoolCell psY psX inT (y * spcY) (x * spcX) pol ang

/-- Source `MaxPool`'s output Y/X sizes: `ny/spc` (`-1` when `spc ≠ psize`,
the 50%-overlap case). -/
def maxPoolOutDims (ny nx psY psX spcY spcX : ℕ) : ℕ × ℕ :=
  (if spcY ≠ psY then ny / spcY - 1 else ny / spcY,
   if spcX ≠ psX then nx / spcX - 1 else nx / spcX)

/-- The list of input values in one pooling window. -/
def poolWindow (psY psX : ℕ) (inT : ℕ → ℕ → ℕ → ℕ → R)
    (iy ix pol ang : ℕ) : List R :=
  (List.range psY).flatMap fun py =>
    (List.range psX).map fun px => inT (iy + py) (ix + px) pol ang

/-! ## Claim C5: `Geom.SetSize` output size computation -/

/-- A geometry with anisotropic spacing (X spacing 2, Y spacing 1),
exhibiting that `SetSize` divides the Y axis by the X spacing. -/
def geomC5 : Geom :=
  ⟨⟨0, 0⟩, ⟨0, 0⟩, ⟨2, 2⟩, ⟨2, 1⟩, ⟨0, 0⟩, ⟨0, 0⟩, ⟨0, 0⟩⟩

/-- C5 counterexample: with Border = (2,2), Spacing = (X=2, Y=1) and input
size 20×20, the code computes `Out.Y = (20-4)/2 = 8` (dividing by
`Spacing.X`), not `(In.Y − 2·Border.Y)/Spacing.Y = 16` as the claim states. -/
theorem c5_setsize_counterexample :
    (SetSize geomC5 ⟨20, 20⟩).Out.Y ≠
      Int.tdiv ((20 : ℤ) - 2 * geomC5.Border.Y) geomC5.Spacing.Y := by
  decide

/-- C5 (amended): `Geom.SetSize` stores `In = inputSize` and computes
`Out.X = (In.X − 2·Border.X) / Spacing.X` and
`Out.Y = (In.Y − 2·Border.Y) / Spacing.X` — both axes are divided by the X
spacing (truncating integer division). -/
theorem c5_setsize_amended (g : Geom) (inSize : Pt) :
    (SetSize g inSize).In = inSize
    ∧ (SetSize g inSize).Out.X = Int.tdiv (inSize.X - 2 * g.Border.X) g.Spacing.X
    ∧ (SetSize g inSize).Out.Y = Int.tdiv (inSize.Y - 2 * g.Border.Y) g.Spacing.X :=
  ⟨rfl, rfl, rfl⟩

/-! ## Claim C3: convolution polarity split -/

/-- The geometry of a 1×1-filter, stride-1 convolution used for the
counterexample. -/
def geomC3 : Geom :=
  ⟨⟨4, 4⟩, ⟨2, 2⟩, ⟨1, 1⟩, ⟨1, 1⟩, ⟨1, 1⟩, ⟨0, 0⟩, ⟨1, 1⟩⟩

/-- C3 counterexample: on an all-zero image the computed `sum` is 0 and the
polarity split writes 0 to **both** channels, so "exactly one of the two
polarity channels is nonzero" fails for this computed cell. -/
theorem c3_polarity_split_counterexample :
    ¬ ExactlyOneNonzero
      (convThrCell geomC3 (fun _ => (1 : ℤ)) 0 (fun _ _ => 0) 1 0 0).1
      (convThrCell geomC3 (fun _ => (1 : ℤ)) 0 (fun _ _ => 0) 1 0 0).2 := by
  decide

/-- C3 (amended): for every convolution output cell, with
`s = gain * (window sum)` the polarity split satisfies
`channel0 − channel1 = s`; when `s > 0` the channels are `(s, 0)`, otherwise
`(0, −s)`; and **at most** one channel is nonzero — exactly one whenever
`s ≠ 0` (both are zero when `s = 0`). -/
theorem c3_polarity_split_amended (g : Geom) (flt : ℕ → ℚ) (f : ℕ)
    (img : ℤ → ℤ → ℚ) (gain : ℚ) (y x : ℕ) :
    (convThrCell g flt f img gain y x).1 - (convThrCell g flt f img gain y x).2
        = gain * convRawSum g flt f img y x
    ∧ (gain * convRawSum g flt f img y x > 0 →
        convThrCell g flt f img gain y x = (gain * convRawSum g flt f img y x, 0))
    ∧ (¬ gain * convRawSum g flt f img y x > 0 →
        convThrCell g flt f img gain y x = (0, -(gain * convRawSum g flt f img y x)))
    ∧ (gain * convRawSum g flt f img y x ≠ 0 →
        ExactlyOneNonzero (convThrCell g flt f img gain y x).1
          (convThrCell g flt f img gain y x).2) := by
  set s := gain * convRawSum g flt f img y x with hs
  unfold convThrCell polaritySplit
  rw [← hs]
  by_cases h : s > 0
  · refine ⟨by simp [h], fun _ => by simp [h], fun hn => absurd h hn, fun _ => ?_⟩
    simp [ExactlyOneNonzero, h, ne_of_gt h]
  · refine ⟨by simp [h], fun hp => absurd hp h, fun _ => by simp [h], fun hne => ?_⟩
    right
    have hlt : s < 0 := lt_of_le_of_ne (not_lt.mp h) hne
    simp [h, neg_ne_zero]
    exact ne_of_lt hlt

/-! ## Claim C4: the activation `Deconv` recovers -/

/-- A polarity-split output cell whose On channel (polarity 0) holds 1 and
whose Off channel (polarity 1) holds 0 — i.e. a positive signed value 1. -/
def outC4 : OutTensor ℤ :=
  ⟨[1, 1, 2, 1], fun _ _ pol _ => if pol = 0 then 1 else 0⟩

/-- C4: at a cell holding On = 1, Off = 0 (signed value +1), the code's
recovery (`deconv.go` tests polarity channel 1 and negates channel 0)
produces −1, while the spec's recovery `onValue if onValue>0 else −offValue`
produces +1: the code reads the polarity channels swapped and reconstructs
the negated signed activation. -/
theorem c4_deconv_act_sign_flipped :
    deconvAct outC4 0 0 0 = -1 ∧ specDeconvAct outC4 0 0 0 = 1 := by
  decide

/-! ## Claim C9: `Deconv` is a no-op on shape mismatch -/

/-- C9: when the output tensor's shape is not exactly
`[Out.Y, Out.X, 2, nf]` as required by the geometry, `Deconv` returns
without touching the accumulation image: the image after the call is the
image before it. -/
theorem c9_deconv_mismatch_noop (g0 : Geom) (nf fy fx : ℕ) (flt : ℕ → ℚ)
    (imgDimY imgDimX : ℤ) (img : ℤ → ℤ → ℚ) (out : OutTensor ℚ)
    (h : deconvOutShape g0 nf fy fx imgDimY imgDimX ≠ out.Shp) :
    Deconv g0 nf fy fx flt imgDimY imgDimX img out = img := by
  unfold Deconv
  simp [h]

/-- C9 witness: a concrete mismatch (the required shape for a 1-filter 1×1
kernel over a 4×4 image is `[2, 2, 2, 1]`, the supplied tensor's shape is
empty), on which `Deconv` returns the image unchanged. -/
theorem c9_deconv_mismatch_noop_witness :
    deconvOutShape geomC3 1 1 1 4 4 ≠ (⟨[], fun _ _ _ _ => 0⟩ : OutTensor ℚ).Shp
    ∧ Deconv geomC3 1 1 1 (fun _ => (1 : ℚ)) 4 4 (fun _ _ => 0)
        ⟨[], fun _ _ _ _ => 0⟩ = fun _ _ => 0 :=
  ⟨by decide, c9_deconv_mismatch_noop geomC3 1 1 1 (fun _ => (1 : ℚ)) 4 4
    (fun _ _ => 0) ⟨[], fun _ _ _ _ => 0⟩ (by decide)⟩

/-! ## Claim C8: max pooling -/

/-- The source's running max (`if iv > max { max = iv }`) is `max`. -/
lemma ite_gt_eq_max (m a : R) : (if a > m then a else m) = max m a := by
  rcases lt_or_ge m a with h | h
  · rw [if_pos h, max_eq_right h.le]
  · rw [if_neg (not_lt.mpr h), max_eq_left h]

/-- The running-max loop over one window row is a left fold of `max`. -/
lemma loopN_runmax (w : ℕ → R) (n : ℕ) (m0 : R) :
    loopN (fun i m => if w i > m then w i else m) n m0
      = ((List.range n).map w).foldl max m0 := by
  induction n with
  | zero => simp [loopN]
  | succ n ih =>
    rw [loopN, List.range_succ, List.map_append, List.foldl_append, ih]
    simp [ite_gt_eq_max]

/-- A left fold of `max` never goes below its start value. -/
lemma le_foldl_max (l : List R) : ∀ m0 : R, m0 ≤ l.foldl max m0 := by
  induction l with
  | nil => intro m0; simp
  | cons a l ih =>
    intro m0
    calc m0 ≤ max m0 a := le_max_left _ _
    _ ≤ (a :: l).foldl max m0 := by simpa using ih (max m0 a)

/-- Source `maxPoolCell` computes the left fold of `max` over the window values,
started at 0. -/
lemma maxPoolCell_eq_foldl (psY psX : ℕ) (inT : ℕ → ℕ → ℕ → ℕ → R)
    (iy ix pol ang : ℕ) :
    maxPoolCell psY psX inT iy ix pol ang
      = (poolWindow psY psX inT iy ix pol ang).foldl max 0 := by
  unfold maxPoolCell poolWindow
  induction psY with
  | zero => simp [loopN]
  | succ n ih =>
    rw [loopN, List.range_succ, List.flatMap_append, List.foldl_append, ih]
    simpa using loopN_runmax
      (fun px => inT (iy + n) (ix + px) pol ang) psX _

/-- A 4×4 single-feature input raster (`[Y, X, Polarity, Angle]` with one
polarity and one angle), rows `[1,2,5,6], [3,4,7,8], [9,10,13,14],
[11,12,15,16]`. -/
def tblC8 : List (List ℤ) :=
  [[1, 2, 5, 6], [3, 4, 7, 8], [9, 10, 13, 14], [11, 12, 15, 16]]

def inC8 : ℕ → ℕ → ℕ → ℕ → ℤ := fun iy ix _ _ => (tblC8.getD iy []).getD ix 0

/-- C8: every `MaxPool` output cell is the `max`-fold, floored at 0, of the
input values in its `psize.Y × psize.X` window starting at
`(y*spc.Y, x*spc.X)` for its feature indices (so outputs are never
negative), and on the 4×4 example input with pool size = spacing = (2,2)
the 2×2 output is `[[4,8],[12,16]]`. -/
theorem c8_maxpool_window_max {R : Type} [LinearOrderedRing R]
    (psY psX spcY spcX : ℕ) (inT : ℕ → ℕ → ℕ → ℕ → R) (y x pol ang : ℕ) :
    (maxPoolOut psY psX spcY spcX inT y x pol ang
      = (poolWindow psY psX inT (y * spcY) (x * spcX) pol ang).foldl max 0)
    ∧ 0 ≤ maxPoolOut psY psX spcY spcX inT y x pol ang
    ∧ (maxPoolOutDims 4 4 2 2 2 2 = (2, 2)
      ∧ maxPoolOut 2 2 2 2 inC8 0 0 0 0 = 4
      ∧ maxPoolOut 2 2 2 2 inC8 0 1 0 0 = 8
      ∧ maxPoolOut 2 2 2 2 inC8 1 0 0 0 = 12
      ∧ maxPoolOut 2 2 2 2 inC8 1 1 0 0 = 16) := by
  refine ⟨maxPoolCell_eq_foldl psY psX inT _ _ pol ang, ?_, by decide⟩
  rw [maxPoolOut, maxPoolCell_eq_foldl]
  exact le_foldl_max _ 0

/-! ## Claim C2: FFFB feedback low-pass filter -/

/-- C2: starting from `FBi = 0` (`Init`), applying the FFFB `Inhib` step
`n` times with constant statistics gives, with `fbTarget = FB × avgAct`:
each step is the low-pass update `FBi += FBDt × (fbTarget − FBi)` on the
previous iteration's `FBi`; after `n` steps
`FBi = fbTarget × (1 − (1−FBDt)^n)`; and (for any feedback rate with
`|1−FBDt| < 1`, which holds for all the default `FBTau` values 1.4, 3, 5)
`FBi → FB × avgAct` as `n → ∞`. -/
theorem c2_fffb_feedback_lowpass (fb : FFFBParams ℝ) (avgGe maxGe avgAct : ℝ)
    (h : |1 - fb.FBDt| < 1) :
    (∀ n, (InhibIter fb avgGe maxGe avgAct (n + 1)).FBi =
        (InhibIter fb avgGe maxGe avgAct n).FBi
          + fb.FBDt * (fb.FB * avgAct - (InhibIter fb avgGe maxGe avgAct n).FBi))
    ∧ (∀ n, (InhibIter fb avgGe maxGe avgAct n).FBi =
        (fb.FB * avgAct) * (1 - (1 - fb.FBDt) ^ n))
    ∧ Filter.Tendsto (fun n => (InhibIter fb avgGe maxGe avgAct n).FBi)
        Filter.atTop (nhds (fb.FB * avgAct)) := by
  have hstep : ∀ n, (InhibIter fb avgGe maxGe avgAct (n + 1)).FBi =
      (InhibIter fb avgGe maxGe avgAct n).FBi
        + fb.FBDt * (fb.FB * avgAct - (InhibIter fb avgGe maxGe avgAct n).FBi) := by
    intro n
    simp [InhibIter, Inhib, FBUpdt, FBInhib]
  have hclosed : ∀ n, (InhibIter fb avgGe maxGe avgAct n).FBi =
      (fb.FB * avgAct) * (1 - (1 - fb.FBDt) ^ n) := by
    intro n
    induction n with
    | zero => simp [InhibIter, fffbInhibInit]
    | succ n ih => rw [hstep n, ih]; ring
  refine ⟨hstep, hclosed, ?_⟩
  have hpow : Filter.Tendsto (fun n : ℕ => (1 - fb.FBDt) ^ n)
      Filter.atTop (nhds 0) :=
    tendsto_pow_atTop_nhds_zero_of_abs_lt_one h
  have hmain : Filter.Tendsto
      (fun n : ℕ => (fb.FB * avgAct) * (1 - (1 - fb.FBDt) ^ n))
      Filter.atTop (nhds ((fb.FB * avgAct) * (1 - 0))) :=
    (Filter.Tendsto.const_mul _ (tendsto_const_nhds.sub hpow))
  simp only [sub_zero, mul_one] at hmain
  exact hmain.congr (fun n => (hclosed n).symm)

/-- C2 witness: the default parameters (`FBTau = 1.4`, so `FBDt = 5/7`)
satisfy the feedback-rate bound, and the theorem applies to them. -/
theorem c2_fffb_feedback_lowpass_witness :
    |1 - (FFFBDefaults (F := ℝ)).FBDt| < 1
    ∧ Filter.Tendsto
        (fun n => (InhibIter (FFFBDefaults (F := ℝ)) 1 1 1 n).FBi)
        Filter.atTop (nhds ((FFFBDefaults (F := ℝ)).FB * 1)) := by
  have h : |1 - (FFFBDefaults (F := ℝ)).FBDt| < 1 := by
    rw [show (FFFBDefaults (F := ℝ)).FBDt = 1 / (7 / 5) by
      simp [FFFBDefaults, FFFBUpdate]]
    rw [abs_lt]
    constructor <;> norm_num
  exact ⟨h, (c2_fffb_feedback_lowpass (FFFBDefaults (F := ℝ)) 1 1 1 h).2.2⟩

/-! ## Claim C7: NoisyXX1 branch continuity (default parameters) -/

/-- C7: with the default parameters (`Thr = 0.5`, `Gain = 80`, `NVar = 0.01`,
derived constants per `Update`, for any `pow` model of `math32.Pow`):
`SigValAt0 = SigMultEff / 2`; the sigmoid branch tends to `SigValAt0` as
`x → 0⁻` (with the real exponential); the interpolation branch equals
`SigValAt0` at `x = 0` and equals `XX1GainCor (InterpRange)` at
`x = InterpRange`; and `NoisyXX1` actually uses those branches at and below
the joints.  So the three-branch function is continuous at both joints (in
the exact-arithmetic model, exactly, hence within any floating-point
tolerance). -/
theorem c7_noisyxx1_continuity (powf : ℝ → ℝ → ℝ) :
    (XX1Defaults powf).SigValAt0 = (XX1Defaults powf).SigMultEff / 2
    ∧ Filter.Tendsto (SigFun Real.exp (XX1Defaults powf))
        (nhdsWithin 0 (Set.Iio 0)) (nhds (XX1Defaults powf).SigValAt0)
    ∧ InterpFun (XX1Defaults powf) 0 = (XX1Defaults powf).SigValAt0
    ∧ InterpFun (XX1Defaults powf) (XX1Defaults powf).InterpRange
        = XX1GainCor (XX1Defaults powf) (XX1Defaults powf).InterpRange
    ∧ NoisyXX1 Real.exp (XX1Defaults powf) 0 = InterpFun (XX1Defaults powf) 0
    ∧ ∀ x : ℝ, x < 0 →
        NoisyXX1 Real.exp (XX1Defaults powf) x
          = SigFun Real.exp (XX1Defaults powf) x := by
  set p : XX1Params ℝ := XX1Defaults powf with hp
  have h1 : p.SigValAt0 = p.SigMultEff / 2 := by
    rw [hp]; simp [XX1Defaults, XX1Update]; ring
  have hIR : p.InterpRange = 1 / 100 := by
    rw [hp]; simp [XX1Defaults, XX1Update]
  have hIV : p.InterpVal = XX1GainCor p p.InterpRange - p.SigValAt0 := by
    rw [hp]
    simp [XX1Defaults, XX1Update, XX1GainCor, XX1]
  have h0 : SigFun Real.exp p 0 = p.SigValAt0 := by
    rw [h1]
    simp [SigFun, Real.exp_zero]
    norm_num
  have hc : ContinuousAt (SigFun Real.exp p) 0 := by
    show ContinuousAt
      (fun x : ℝ => p.SigMultEff / (1 + Real.exp (-(x * p.SigGainNVar)))) 0
    apply ContinuousAt.div continuousAt_const
    · fun_prop
    · positivity
  refine ⟨h1, ?_, ?_, ?_, ?_, ?_⟩
  · have ht : Filter.Tendsto (SigFun Real.exp p) (nhdsWithin 0 (Set.Iio 0))
        (nhds (SigFun Real.exp p 0)) :=
      hc.tendsto.mono_left nhdsWithin_le_nhds
    rw [h0] at ht
    exact ht
  · simp [InterpFun, hIR]
  · rw [InterpFun, sub_self, zero_div, sub_zero, one_mul, hIV]
    ring
  · simp [NoisyXX1, hIR, show ¬ (0:ℝ) < 0 from lt_irrefl 0,
      show (0:ℝ) < 1 / 100 by norm_num]
  · intro x hx
    simp [NoisyXX1, hx]

/-! ## The kwta fixed-point loop: termination and trajectory lemmas -/

/-- The state transformer of one kwta iteration (dropping `maxDelAct`). -/
def stepState {σ : Type} (step : σ → σ × F) (s : σ) : σ := (step s).1

/-- The stopping test of the kwta loop at Go loop counter `cy`:
`cy > 2 && maxDelAct < DelActThr`. -/
def stopCond {σ : Type} (thr : F) (step : σ → σ × F) (cy : ℕ) (s : σ) : Prop :=
  2 < cy ∧ (step s).2 < thr

lemma kwtaLoop_count_le {σ : Type} (thr : F) (step : σ → σ × F) :
    ∀ (r cy : ℕ) (s : σ), (kwtaLoop thr step cy r s).2 ≤ r := by
  intro r
  induction r with
  | zero => intro cy s; simp [kwtaLoop]
  | succ r ih =>
    intro cy s
    by_cases hstop : 2 < cy ∧ (step s).2 < thr
    · simp [kwtaLoop, hstop]
    · simp only [kwtaLoop, if_neg hstop]
      have := ih (cy + 1) (step s).1
      omega

lemma kwtaLoop_count_pos {σ : Type} (thr : F) (step : σ → σ × F) :
    ∀ (r cy : ℕ) (s : σ), 0 < r → 1 ≤ (kwtaLoop thr step cy r s).2 := by
  intro r cy s hr
  match r, hr with
  | r + 1, _ =>
    by_cases hstop : 2 < cy ∧ (step s).2 < thr
    · simp [kwtaLoop, hstop]
    · simp only [kwtaLoop, if_neg hstop]
      omega

lemma kwtaLoop_state {σ : Type} (thr : F) (step : σ → σ × F) :
    ∀ (r cy : ℕ) (s : σ),
      (kwtaLoop thr step cy r s).1
        = (stepState step)^[(kwtaLoop thr step cy r s).2] s := by
  intro r
  induction r with
  | zero => intro cy s; simp [kwtaLoop]
  | succ r ih =>
    intro cy s
    by_cases hstop : 2 < cy ∧ (step s).2 < thr
    · simp [kwtaLoop, hstop, stepState]
    · simp only [kwtaLoop, if_neg hstop]
      rw [ih (cy + 1) (step s).1, Function.iterate_succ_apply]
      rfl

lemma kwtaLoop_early {σ : Type} (thr : F) (step : σ → σ × F) :
    ∀ (r cy : ℕ) (s : σ), (kwtaLoop thr step cy r s).2 < r →
      stopCond thr step (cy + ((kwtaLoop thr step cy r s).2 - 1))
        ((stepState step)^[(kwtaLoop thr step cy r s).2 - 1] s) := by
  intro r
  induction r with
  | zero => intro cy s h; omega
  | succ r ih =>
    intro cy s h
    by_cases hstop : 2 < cy ∧ (step s).2 < thr
    · simp [kwtaLoop, hstop, stopCond]
    · simp only [kwtaLoop, if_neg hstop] at h ⊢
      have hq : (kwtaLoop thr step (cy + 1) r (step s).1).2 < r := by omega
      have hpos : 1 ≤ (kwtaLoop thr step (cy + 1) r (step s).1).2 :=
        kwtaLoop_count_pos thr step r (cy + 1) (step s).1 (by omega)
      set q := (kwtaLoop thr step (cy + 1) r (step s).1).2 with hqdef
      have hthis := ih (cy + 1) (step s).1 hq
      rw [← hqdef] at hthis
      have e1 : cy + 1 + (q - 1) = cy + (q + 1 - 1) := by omega
      have e2 : (stepState step)^[q - 1] ((step s).1)
          = (stepState step)^[q + 1 - 1] s := by
        have h2 := Function.iterate_succ_apply (stepState step) (q - 1) s
        rw [show (q - 1).succ = q + 1 - 1 by omega] at h2
        exact h2.symm
      rw [e1, e2] at hthis
      exact hthis

lemma kwtaLoop_first {σ : Type} (thr : F) (step : σ → σ × F) :
    ∀ (r cy : ℕ) (s : σ) (j : ℕ), j + 1 < (kwtaLoop thr step cy r s).2 →
      ¬ stopCond thr step (cy + j) ((stepState step)^[j] s) := by
  intro r
  induction r with
  | zero => intro cy s j h; simp [kwtaLoop] at h
  | succ r ih =>
    intro cy s j h
    by_cases hstop : 2 < cy ∧ (step s).2 < thr
    · simp [kwtaLoop, hstop] at h
    · simp only [kwtaLoop, if_neg hstop] at h
      match j with
      | 0 => simpa [stopCond] using hstop
      | j' + 1 =>
        have hthis := ih (cy + 1) (step s).1 j' (by omega)
        have e1 : cy + 1 + j' = cy + (j' + 1) := by omega
        have e2 : (stepState step)^[j'] ((step s).1)
            = (stepState step)^[j' + 1] s :=
          (Function.iterate_succ_apply (stepState step) j' s).symm
        rw [e1, e2] at hthis
        exact hthis

lemma kwtaLoop_nostop {σ : Type} (thr : F) (step : σ → σ × F) :
    ∀ (r cy : ℕ) (s : σ),
      (∀ j, j < r → ¬ stopCond thr step (cy + j) ((stepState step)^[j] s)) →
      (kwtaLoop thr step cy r s).2 = r := by
  intro r
  induction r with
  | zero => intro cy s _; simp [kwtaLoop]
  | succ r ih =>
    intro cy s h
    by_cases hstop : 2 < cy ∧ (step s).2 < thr
    · exact absurd (by simpa [stopCond] using hstop) (h 0 (by omega))
    · simp only [kwtaLoop, if_neg hstop]
      have : (kwtaLoop thr step (cy + 1) r (step s).1).2 = r := by
        apply ih
        intro j hj
        have hthis := h (j + 1) (by omega)
        have e1 : cy + (j + 1) = cy + 1 + j := by omega
        have e2 : (stepState step)^[j + 1] s
            = (stepState step)^[j] ((step s).1) :=
          Function.iterate_succ_apply (stepState step) j s
        rw [e1, e2] at hthis
        exact hthis
      omega

/-! ## Claim C10: the raw input tensor is never written -/

lemma layerIter_raws (k : KWTA F) (expf : F → F) (n : ℕ)
    (ext : Option (ℕ → F)) (s : LayerState F) :
    ((layerIter k expf n ext s).1).raws = s.raws := rfl

lemma poolIter_raws (k : KWTA F) (expf : F → F) (layN plN : ℕ)
    (ext : Option (ℕ → F)) (s : PoolState F) :
    ((poolIter k expf layN plN ext s).1).raws = s.raws := rfl

lemma layerIterate_raws (k : KWTA F) (expf : F → F) (n : ℕ)
    (ext : Option (ℕ → F)) :
    ∀ (m : ℕ) (s : LayerState F),
      ((stepState (layerIter k expf n ext))^[m] s).raws = s.raws := by
  intro m
  induction m with
  | zero => intro s; rfl
  | succ m ih =>
    intro s
    rw [Function.iterate_succ_apply, ih]
    rfl

lemma poolIterate_raws (k : KWTA F) (expf : F → F) (layN plN : ℕ)
    (ext : Option (ℕ → F)) :
    ∀ (m : ℕ) (s : PoolState F),
      ((stepState (poolIter k expf layN plN ext))^[m] s).raws = s.raws := by
  intro m
  induction m with
  | zero => intro s; rfl
  | succ m ih =>
    intro s
    rw [Function.iterate_succ_apply, ih]
    rfl

/-- C10: `KWTALayer` and `KWTAPool` never modify the raw excitatory-drive
input: the `raws` component of the state they return is exactly the input
`raws` (only the activations and the `Inhib` records are written). -/
theorem c10_kwta_raw_unmodified (k : KWTA ℚ) (expf : ℚ → ℚ)
    (n layN plN : ℕ) (raws acts0 : ℕ → ℚ) (inhibs0 : ℕ → FFFBInhib ℚ)
    (extL extP : Option (ℕ → ℚ)) :
    ((KWTALayer k expf n raws acts0 extL).1).raws = raws
    ∧ ((KWTAPool k expf layN plN raws acts0 inhibs0 extP).1).raws = raws := by
  constructor
  · rw [KWTALayer, kwtaRun, kwtaLoop_state, layerIterate_raws]; rfl
  · rw [KWTAPool, kwtaRun, kwtaLoop_state, poolIterate_raws]; rfl

/-! ## Claim C6: iteration bound and early-exit condition -/

/-- C6: both solvers perform at most `Iters` iterations of the fixed-point
loop; the returned state is the loop body iterated exactly that many times
(no error path exists — on non-convergence the count is exactly `Iters` and
the last state is returned); the loop exits early exactly when the
iteration counter exceeds 2 and the iteration's `maxDelAct` is below
`DelActThr` — i.e. on early exit the last performed iteration satisfied the
condition, and no earlier iteration did. -/
theorem c6_kwta_termination (k : KWTA ℚ) (expf : ℚ → ℚ) (n layN plN : ℕ)
    (raws acts0 : ℕ → ℚ) (inhibs0 : ℕ → FFFBInhib ℚ)
    (extL extP : Option (ℕ → ℚ)) :
    ((KWTALayer k expf n raws acts0 extL).2 ≤ k.Iters
      ∧ (KWTALayer k expf n raws acts0 extL).1
          = (stepState (layerIter k expf n extL))^[(KWTALayer k expf n raws acts0 extL).2]
              (layerInit raws acts0 n)
      ∧ ((KWTALayer k expf n raws acts0 extL).2 < k.Iters →
          stopCond k.DelActThr (layerIter k expf n extL)
            ((KWTALayer k expf n raws acts0 extL).2 - 1)
            ((stepState (layerIter k expf n extL))^[(KWTALayer k expf n raws acts0 extL).2 - 1]
              (layerInit raws acts0 n)))
      ∧ (∀ j, j + 1 < (KWTALayer k expf n raws acts0 extL).2 →
          ¬ stopCond k.DelActThr (layerIter k expf n extL) j
            ((stepState (layerIter k expf n extL))^[j] (layerInit raws acts0 n)))
      ∧ ((∀ j, j < k.Iters →
            ¬ stopCond k.DelActThr (layerIter k expf n extL) j
              ((stepState (layerIter k expf n extL))^[j] (layerInit raws acts0 n))) →
          (KWTALayer k expf n raws acts0 extL).2 = k.Iters))
    ∧ ((KWTAPool k expf layN plN raws acts0 inhibs0 extP).2 ≤ k.Iters
      ∧ (KWTAPool k expf layN plN raws acts0 inhibs0 extP).1
          = (stepState (poolIter k expf layN plN extP))^[(KWTAPool k expf layN plN raws acts0 inhibs0 extP).2]
              (poolInit raws acts0 inhibs0 layN plN)
      ∧ ((KWTAPool k expf layN plN raws acts0 inhibs0 extP).2 < k.Iters →
          stopCond k.DelActThr (poolIter k expf layN plN extP)
            ((KWTAPool k expf layN plN raws acts0 inhibs0 extP).2 - 1)
            ((stepState (poolIter k expf layN plN extP))^[(KWTAPool k expf layN plN raws acts0 inhibs0 extP).2 - 1]
              (poolInit raws acts0 inhibs0 layN plN)))
      ∧ (∀ j, j + 1 < (KWTAPool k expf layN plN raws acts0 inhibs0 extP).2 →
          ¬ stopCond k.DelActThr (poolIter k expf layN plN extP) j
            ((stepState (poolIter k expf layN plN extP))^[j]
              (poolInit raws acts0 inhibs0 layN plN)))
      ∧ ((∀ j, j < k.Iters →
            ¬ stopCond k.DelActThr (poolIter k expf layN plN extP) j
              ((stepState (poolIter k expf layN plN extP))^[j]
                (poolInit raws acts0 inhibs0 layN plN))) →
          (KWTAPool k expf layN plN raws acts0 inhibs0 extP).2 = k.Iters)) := by
  constructor
  · rw [KWTALayer, kwtaRun]
    refine ⟨kwtaLoop_count_le _ _ _ _ _, kwtaLoop_state _ _ _ _ _, ?_, ?_, ?_⟩
    · intro h
      have := kwtaLoop_early k.DelActThr (layerIter k expf n extL) k.Iters 0
        (layerInit raws acts0 n) h
      simpa using this
    · intro j hj
      have := kwtaLoop_first k.DelActThr (layerIter k expf n extL) k.Iters 0
        (layerInit raws acts0 n) j hj
      simpa using this
    · intro hall
      apply kwtaLoop_nostop
      intro j hj
      simpa using hall j hj
  · rw [KWTAPool, kwtaRun]
    refine ⟨kwtaLoop_count_le _ _ _ _ _, kwtaLoop_state _ _ _ _ _, ?_, ?_, ?_⟩
    · intro h
      have := kwtaLoop_early k.DelActThr (poolIter k expf layN plN extP) k.Iters 0
        (poolInit raws acts0 inhibs0 layN plN) h
      simpa using this
    · intro j hj
      have := kwtaLoop_first k.DelActThr (poolIter k expf layN plN extP) k.Iters 0
        (poolInit raws acts0 inhibs0 layN plN) j hj
      simpa using this
    · intro hall
      apply kwtaLoop_nostop
      intro j hj
      simpa using hall j hj

/-! ## Claim C1: the effective Gi of each `KWTAPool` unit

The per-unit loop of one `KWTAPool` iteration writes each unit's activation
exactly once, reading only that unit's previous activation, so the
activation written at flat index `pi*plN + ui` is a function of the
iteration's layer-level Gi, pool `pi`'s Gi, the optional external
inhibition at that index, and the unit's own `(ge, act)`. -/

lemma key_lt_of_pool_lt {p' m u' plN : ℕ} (hp : p' < m) (hu : u' < plN) :
    p' * plN + u' < m * plN := by
  calc p' * plN + u' < p' * plN + plN := by omega
  _ = (p' + 1) * plN := by ring
  _ ≤ m * plN := mul_le_mul_right' (Nat.succ_le_of_lt hp) plN

lemma poolUnit_loop_untouched (k : KWTA F) (expf : F → F) (giPool : F)
    (ext : Option (ℕ → F)) (raws : ℕ → F) (pui : ℕ) :
    ∀ (m : ℕ) (st : PoolUnitAcc F) (key : ℕ),
      (∀ j, j < m → key ≠ pui + j) →
      (loopN (poolUnit k expf giPool ext raws pui) m st).acts key
        = st.acts key := by
  intro m
  induction m with
  | zero => intro st key _; rfl
  | succ m ih =>
    intro st key h
    simp only [loopN, poolUnit]
    rw [Function.update_noteq (h m (by omega))]
    exact ih st key (fun j hj => h j (by omega))

lemma poolUnit_loop_get (k : KWTA F) (expf : F → F) (giPool : F)
    (ext : Option (ℕ → F)) (raws : ℕ → F) (pui : ℕ) :
    ∀ (m : ℕ) (st : PoolUnitAcc F) (j : ℕ), j < m →
      (loopN (poolUnit k expf giPool ext raws pui) m st).acts (pui + j)
        = (ActFmG k expf (GeThrFmG k (poolUnitGi k giPool ext (pui + j)))
            (raws (pui + j)) (st.acts (pui + j))).1 := by
  intro m
  induction m with
  | zero => intro st j h; omega
  | succ m ih =>
    intro st j hj
    simp only [loopN, poolUnit]
    rcases Nat.lt_succ_iff_lt_or_eq.mp hj with h | h
    · rw [Function.update_noteq (by omega)]
      exact ih st j h
    · subst h
      rw [Function.update_same]
      rw [poolUnit_loop_untouched k expf giPool ext raws pui j st (pui + j)
        (fun u hu => by omega)]

lemma poolBody_loop_plInhibs (k : KWTA F) (expf : F → F)
    (ext : Option (ℕ → F)) (raws : ℕ → F) (plN : ℕ) (layGi : F) :
    ∀ (m : ℕ) (st : PoolAcc F) (p' : ℕ), m ≤ p' →
      (loopN (poolBody k expf ext raws plN layGi) m st).plInhibs p'
        = st.plInhibs p' := by
  intro m
  induction m with
  | zero => intro st p' _; rfl
  | succ m ih =>
    intro st p' h
    simp only [loopN, poolBody]
    rw [Function.update_noteq (by omega)]
    exact ih st p' (by omega)

lemma poolBody_loop_acts_untouched (k : KWTA F) (expf : F → F)
    (ext : Option (ℕ → F)) (raws : ℕ → F) (plN : ℕ) (layGi : F) :
    ∀ (m : ℕ) (st : PoolAcc F) (key : ℕ),
      (∀ p' u', p' < m → u' < plN → key ≠ p' * plN + u') →
      (loopN (poolBody k expf ext raws plN layGi) m st).acts key
        = st.acts key := by
  intro m
  induction m with
  | zero => intro st key _; rfl
  | succ m ih =>
    intro st key h
    simp only [loopN, poolBody]
    rw [poolUnit_loop_untouched k expf _ ext raws (m * plN) plN _ key
      (fun j hj => h m j (by omega) hj)]
    exact ih st key (fun p' u' hp hu => h p' u' (by omega) hu)

lemma poolBody_loop_acts_get (k : KWTA F) (expf : F → F)
    (ext : Option (ℕ → F)) (raws : ℕ → F) (plN : ℕ) (layGi : F) :
    ∀ (m : ℕ) (st : PoolAcc F) (pi ui : ℕ), pi < m → ui < plN →
      (loopN (poolBody k expf ext raws plN layGi) m st).acts (pi * plN + ui)
        = (ActFmG k expf
            (GeThrFmG k (poolUnitGi k
              (max layGi (InhibOn k.PoolFFFB (st.plInhibs pi)).Gi)
              ext (pi * plN + ui)))
            (raws (pi * plN + ui)) (st.acts (pi * plN + ui))).1 := by
  intro m
  induction m with
  | zero => intro st pi ui h _; omega
  | succ m ih =>
    intro st pi ui hpi hui
    rcases Nat.lt_succ_iff_lt_or_eq.mp hpi with h | h
    · simp only [loopN, poolBody]
      rw [poolUnit_loop_untouched k expf _ ext raws (m * plN) plN _
        (pi * plN + ui) (fun j hj => by
          have := key_lt_of_pool_lt h hui
          omega)]
      exact ih st pi ui h hui
    · subst h
      simp only [loopN, poolBody]
      rw [poolUnit_loop_get k expf _ ext raws (pi * plN) plN _ ui hui]
      rw [poolBody_loop_plInhibs k expf ext raws plN layGi pi st pi le_rfl]
      have hu2 := poolBody_loop_acts_untouched k expf ext raws plN layGi pi st
        (pi * plN + ui) (fun p' u' hp hu => by
          have := key_lt_of_pool_lt hp hu
          omega)
      simp only [hu2]

/-- C1: on every `KWTAPool` iteration, writing `layGi` for the layer-level
Gi of that iteration and `plGi` for pool `pi`'s Gi of that iteration, the
activation written for unit `ui` of pool `pi` is computed from the
threshold `GeThrFmG` of the effective inhibition `poolUnitGi` applied to
`giPool = max(layGi, plGi)`; the effective inhibition is never below the
layer-level Gi; it equals `max(layGi, plGi)` exactly when no external
tensor is supplied; and with a (valid) external tensor it equals
`max(giPool, PoolFFFB.Gi × PoolFFFB.FFInhib(extVal, extVal))` where
`extVal` is the unit's external value. -/
theorem c1_kwtapool_effective_gi (k : KWTA ℚ) (expf : ℚ → ℚ)
    (layN plN : ℕ) (ext : Option (ℕ → ℚ)) (s : PoolState ℚ) (pi ui : ℕ)
    (hpi : pi < layN) (hui : ui < plN) :
    (((poolIter k expf layN plN ext s).1).acts (pi * plN + ui)
      = (ActFmG k expf
          (GeThrFmG k (poolUnitGi k
            (max (InhibOn k.LayFFFB s.layInhib).Gi
                 (InhibOn k.PoolFFFB (s.plInhibs pi)).Gi)
            ext (pi * plN + ui)))
          (s.raws (pi * plN + ui)) (s.acts (pi * plN + ui))).1)
    ∧ (InhibOn k.LayFFFB s.layInhib).Gi
        ≤ poolUnitGi k
            (max (InhibOn k.LayFFFB s.layInhib).Gi
                 (InhibOn k.PoolFFFB (s.plInhibs pi)).Gi) ext (pi * plN + ui)
    ∧ poolUnitGi k
          (max (InhibOn k.LayFFFB s.layInhib).Gi
               (InhibOn k.PoolFFFB (s.plInhibs pi)).Gi) none (pi * plN + ui)
        = max (InhibOn k.LayFFFB s.layInhib).Gi
              (InhibOn k.PoolFFFB (s.plInhibs pi)).Gi
    ∧ ∀ eg : ℕ → ℚ,
        poolUnitGi k
            (max (InhibOn k.LayFFFB s.layInhib).Gi
                 (InhibOn k.PoolFFFB (s.plInhibs pi)).Gi)
            (some eg) (pi * plN + ui)
          = max (max (InhibOn k.LayFFFB s.layInhib).Gi
                     (InhibOn k.PoolFFFB (s.plInhibs pi)).Gi)
              (k.PoolFFFB.Gi
                * FFInhib k.PoolFFFB (eg (pi * plN + ui)) (eg (pi * plN + ui))) := by
  refine ⟨?_, ?_, rfl, fun eg => rfl⟩
  · simp only [poolIter]
    exact poolBody_loop_acts_get k expf ext s.raws plN
      (InhibOn k.LayFFFB s.layInhib).Gi layN
      ⟨s.acts, s.plInhibs, avgMaxInit, 0⟩ pi ui hpi hui
  · cases ext with
    | none => exact le_max_left _ _
    | some eg =>
      exact le_trans (le_max_left _ _) (le_max_left _ _)

/-- A concrete `KWTA` parameter block (the `Defaults`, with `math32.Pow`
modelled by the constant-1 function for the derived XX1 constants). -/
def kC1 : KWTA ℚ :=
  { Iters := 20, DelActThr := 5/1000, LayFFFB := FFFBDefaults
    PoolFFFB := { FFFBDefaults with Gi := 2 }
    XX1p := XX1Defaults (fun _ _ => 1)
    Gbar := ⟨1/2, 1/10, 1, 1⟩, Erev := ⟨1, 3/10, 3/10, 1/10⟩
    ErevSubThr := SetFmOtherMinus ⟨1, 3/10, 3/10, 1/10⟩ (1/2)
    ThrSubErev := SetFmMinusOther (1/2) ⟨1, 3/10, 3/10, 1/10⟩ }

/-- A concrete one-pool, one-unit `KWTAPool` state. -/
def sC1 : PoolState ℚ :=
  ⟨fun _ => 0, fun _ => 0, fffbInhibInit, fun _ => fffbInhibInit⟩

/-- C1 witness: the theorem applied to the default parameters with a single
pool of a single unit and no external inhibition. -/
theorem c1_kwtapool_effective_gi_witness :
    (0 : ℕ) < 1
    ∧ (InhibOn kC1.LayFFFB sC1.layInhib).Gi
        ≤ poolUnitGi kC1
            (max (InhibOn kC1.LayFFFB sC1.layInhib).Gi
                 (InhibOn kC1.PoolFFFB (sC1.plInhibs 0)).Gi) none (0 * 1 + 0) :=
  ⟨Nat.zero_lt_one,
   (c1_kwtapool_effective_gi kC1 id 1 1 none sC1 0 0 Nat.zero_lt_one
      Nat.zero_lt_one).2.1⟩

end EmerVision
